import Mathlib

/-!
Verification of the MAKHTECH/management request gatekeeper:
the token-bucket rate limiter (pkg/ratelimiter), the auth interceptor
(internal/grpc), the interceptor chain builder (internal/app/gprc) and
the SSO identity client (internal/clients/sso), shallowly embedded in
Lean 4. Go floats are modelled as rationals, Go time instants as
rational "seconds"; the bucket map is an association list; the gRPC
transport, the SSO backend and the terminal handler are oracles passed
as parameters, and the observable calls the interceptor makes to them
are recorded as an event trace.
-/

namespace Mgmt

/-- Go conversion `int(f)` of a float to an int: truncation toward zero. -/
def goTrunc (q : ℚ) : ℤ :=
  if 0 ≤ q then ⌊q⌋ else ⌈q⌉

/-! ## pkg/ratelimiter: token bucket -/

/-- One per-credential bucket: `tokens` (float64) and `lastUpdate` (time.Time),
from `type bucket struct` in pkg/ratelimiter. -/
structure Bucket where
  tokens : ℚ
  lastUpdate : ℚ
  deriving Repr, DecidableEq

/-- The limiter state: the `buckets` map (modelled as an association list keyed
by the access token) plus the `rate` and `capacity` integers fixed by `New`.
The mutex and the cleanup interval govern concurrency and the background
sweep only and are not part of the sequential state. -/
structure TokenBucket where
  buckets : List (String × Bucket)
  rate : ℤ
  capacity : ℤ
  deriving Repr, DecidableEq

/-- Go map read `tb.buckets[accessToken]` with its `exists` flag. -/
def findBucket : List (String × Bucket) → String → Option Bucket
  | [], _ => none
  | (k', b) :: rest, k => if k' == k then some b else findBucket rest k

/-- Go map write `tb.buckets[k] = b`: replace the entry in place, or append. -/
def setBucket (m : List (String × Bucket)) (k : String) (b : Bucket) :
    List (String × Bucket) :=
  match m with
  | [] => [(k, b)]
  | (k', b') :: rest =>
      if k' == k then (k, b) :: rest else (k', b') :: setBucket rest k b

/-- Go map delete `delete(tb.buckets, k)`. -/
def eraseBucket : List (String × Bucket) → String → List (String × Bucket)
  | [], _ => []
  | (k', b) :: rest, k =>
      if k' == k then eraseBucket rest k else (k', b) :: eraseBucket rest k

/-- Function `TokenBucket.Allow` from pkg/ratelimiter, with `now` (the value of
`time.Now()`) passed explicitly. Returns the `(allowed, remaining)` pair and
the post-state of the limiter. -/
def TokenBucket.Allow (tb : TokenBucket) (accessToken : String) (now : ℚ) :
    (Bool × ℤ) × TokenBucket :=
  match findBucket tb.buckets accessToken with
  | none =>
      let m := setBucket tb.buckets accessToken ⟨(tb.capacity - 1 : ℤ), now⟩
      ((true, tb.capacity - 1), { tb with buckets := m })
  | some b =>
      let elapsed := now - b.lastUpdate
      let t1 := b.tokens + elapsed * (tb.rate : ℚ)
      let t2 := if t1 > (tb.capacity : ℚ) then (tb.capacity : ℚ) else t1
      if t2 ≥ 1 then
        let m := setBucket tb.buckets accessToken ⟨t2 - 1, now⟩
        ((true, goTrunc (t2 - 1)), { tb with buckets := m })
      else
        let m := setBucket tb.buckets accessToken ⟨t2, now⟩
        ((false, 0), { tb with buckets := m })

/-- Function `TokenBucket.Reset` from pkg/ratelimiter. -/
def TokenBucket.Reset (tb : TokenBucket) (accessToken : String) : TokenBucket :=
  { tb with buckets := eraseBucket tb.buckets accessToken }

/-- Function `TokenBucket.Stats` from pkg/ratelimiter. -/
def TokenBucket.Stats (tb : TokenBucket) : ℕ :=
  tb.buckets.length

/-- Function `ratelimiter.New`: normalises the configuration (`rate` defaults to 10 if
≤ 0, `capacity` to `2 * rate` if ≤ 0) and starts with an empty bucket map.
The cleanup interval only parameterises the background sweep. -/
def ratelimiterNew (rate capacity : ℤ) : TokenBucket :=
  let r := if rate ≤ 0 then 10 else rate
  let c := if capacity ≤ 0 then r * 2 else capacity
  { buckets := [], rate := r, capacity := c }

/-- The spec's contract for `Allow`, transcribed from the spec's own words
(spec §4.1): first sight creates a bucket of `capacity - 1` tokens and
admits; otherwise add `elapsed * rate` tokens capped at `capacity`, set
`lastRefill` to `now`, and admit (subtracting 1 and reporting the floor of
the remainder) exactly when the refilled balance is at least 1. -/
def allowContract (tb : TokenBucket) (credential : String) (now : ℚ) :
    (Bool × ℤ) × TokenBucket :=
  match findBucket tb.buckets credential with
  | none =>
      let m := setBucket tb.buckets credential ⟨(tb.capacity - 1 : ℤ), now⟩
      ((true, tb.capacity - 1), { tb with buckets := m })
  | some b =>
      let elapsed := now - b.lastUpdate
      let refilled := min (b.tokens + elapsed * (tb.rate : ℚ)) (tb.capacity : ℚ)
      if refilled ≥ 1 then
        let m := setBucket tb.buckets credential ⟨refilled - 1, now⟩
        ((true, ⌊refilled - 1⌋), { tb with buckets := m })
      else
        let m := setBucket tb.buckets credential ⟨refilled, now⟩
        ((false, 0), { tb with buckets := m })

/-- The bucket-balance invariant of spec §3: every stored balance lies in
`[0, capacity]`. -/
def TokenBucket.Inv (tb : TokenBucket) : Prop :=
  ∀ p ∈ tb.buckets, 0 ≤ p.2.tokens ∧ p.2.tokens ≤ (tb.capacity : ℚ)

/-- All stored refill stamps are at or before `now` (wall-clock monotonicity,
which Go guarantees via the monotonic clock reading in `time.Since`). -/
def TokenBucket.UpToDate (tb : TokenBucket) (now : ℚ) : Prop :=
  ∀ p ∈ tb.buckets, p.2.lastUpdate ≤ now

/-! ## internal/grpc: auth interceptor

The gRPC transport is embedded as follows: a call context `Ctx` carries the
incoming metadata (as carried by `metadata.FromIncomingContext`) and the
chain of `context.WithValue` bindings; the SSO backend and the terminal
handler are oracles passed as parameters; the observable calls the
interceptor makes (limiter, SSO validation, handler) are recorded as an
event trace in the order they happen. -/

/-- Struct `UserInfo` from internal/grpc: the verified identity constructed from the
SSO `ValidateJWTResponse` (`Role`, a proto enum, is modelled as an integer). -/
structure UserInfo where
  userID : ℤ
  username : String
  email : String
  photoURL : String
  role : ℤ
  appID : ℤ
  balance : ℤ
  deriving Repr, DecidableEq

/-- A value bound into a Go `context.Context` by this interceptor: either the
`*UserInfo` under `UserContextKey` or the access-token string under
`AccessTokenContextKey`. -/
inductive CtxVal where
  | user (u : UserInfo)
  | token (t : String)
  deriving Repr, DecidableEq

/-- A call's `context.Context`: the incoming transport metadata (`none` when
`metadata.FromIncomingContext` reports no metadata; each entry is a key-value
pair and a key may repeat) plus the stack of `WithValue` bindings, innermost
first. -/
structure Ctx where
  md : Option (List (String × String))
  vals : List (String × CtxVal)
  deriving Repr, DecidableEq

/-- Function `context.WithValue`: a new context with one more binding (innermost). -/
def withValue (c : Ctx) (k : String) (v : CtxVal) : Ctx :=
  { c with vals := (k, v) :: c.vals }

/-- Lookup `ctx.Value(key)`: the innermost binding for the key, if any. -/
def ctxValue (c : Ctx) (k : String) : Option CtxVal :=
  match c.vals.find? (fun p => p.1 == k) with
  | some p => some p.2
  | none => none

/-- Function `GetUserFromContext` from internal/grpc: the `*UserInfo` bound under
`UserContextKey`, with the failed type assertion yielding `none`. -/
def GetUserFromContext (c : Ctx) : Option UserInfo :=
  match ctxValue c "user" with
  | some (CtxVal.user u) => some u
  | _ => none

/-- Function `GetAccessTokenFromContext` from internal/grpc. -/
def GetAccessTokenFromContext (c : Ctx) : Option String :=
  match ctxValue c "access_token" with
  | some (CtxVal.token t) => some t
  | _ => none

/-- gRPC `md.Get(key)`: all values recorded for the key, in order. -/
def mdGet (m : List (String × String)) (k : String) : List String :=
  (m.filter (fun p => p.1 == k)).map (fun p => p.2)

/-- The gRPC status codes this middleware uses. -/
inductive Code where
  | unauthenticated
  | resourceExhausted
  deriving Repr, DecidableEq

/-- A `status.Error` value: a code plus a message. -/
structure GrpcError where
  code : Code
  msg : String
  deriving Repr, DecidableEq

/-- Go `strings.HasPrefix`, computed on the character sequences (for a
well-formed prefix string this agrees with the byte-level test). -/
def goHasPre (s p : String) : Bool :=
  p.data.isPrefixOf s.data

/-- Go `strings.TrimPrefix`. -/
def goTrimPre (s p : String) : String :=
  if goHasPre s p then String.mk (s.data.drop p.data.length) else s

/-- Function `extractAccessToken` from internal/grpc: missing metadata, missing
`authorization` header, and a value not starting with the literal
`Bearer ` (case-sensitive, single space) are three distinct
`codes.Unauthenticated` rejections; otherwise the credential is the first
header value with the prefix trimmed. -/
def extractAccessToken (c : Ctx) : Except GrpcError String :=
  match c.md with
  | none => Except.error ⟨Code.unauthenticated, "missing metadata"⟩
  | some m =>
    match mdGet m "authorization" with
    | [] => Except.error ⟨Code.unauthenticated, "missing authorization header"⟩
    | authHeader :: _ =>
      if goHasPre authHeader "Bearer " then
        Except.ok (goTrimPre authHeader "Bearer ")
      else
        Except.error
          ⟨Code.unauthenticated, "invalid authorization format, expected Bearer token"⟩

/-- An observable call the unary interceptor makes to a collaborator. -/
inductive Event (Req : Type) where
  | allowCall (tok : String)
  | validateCall (tok : String)
  | handlerCall (c : Ctx) (r : Req)

/-- The complete observable outcome of one unary interceptor run: the value
returned to the transport, the limiter post-state, and the trace of
collaborator calls in order. -/
structure UnaryOutcome (Req Resp : Type) where
  result : Except GrpcError Resp
  rateLimiter : Option TokenBucket
  events : List (Event Req)

/-- The tail of `AuthInterceptor.UnaryInterceptor` from the SSO validation on:
validation failure maps to `codes.Unauthenticated`; on success the user info
and then the access token are bound into the context handed to the handler. -/
def unaryValidatePhase {Req Resp : Type}
    (validateJWT : String → Except String UserInfo)
    (handler : Ctx → Req → Except GrpcError Resp)
    (ctx : Ctx) (req : Req) (accessToken : String)
    (rl : Option TokenBucket) (evs : List (Event Req)) : UnaryOutcome Req Resp :=
  match validateJWT accessToken with
  | Except.error _ =>
      { result := Except.error ⟨Code.unauthenticated, "invalid or expired token"⟩,
        rateLimiter := rl,
        events := evs ++ [Event.validateCall accessToken] }
  | Except.ok u =>
      let ctx1 := withValue (withValue ctx "user" (CtxVal.user u))
        "access_token" (CtxVal.token accessToken)
      { result := handler ctx1 req,
        rateLimiter := rl,
        events := evs ++ [Event.validateCall accessToken, Event.handlerCall ctx1 req] }

/-- Function `AuthInterceptor.UnaryInterceptor` from internal/grpc, with the limiter
state threaded explicitly and the SSO client and next handler as oracles. -/
def unaryInterceptor {Req Resp : Type}
    (publicMethods : List String)
    (rateLimiter : Option TokenBucket)
    (validateJWT : String → Except String UserInfo)
    (fullMethod : String)
    (handler : Ctx → Req → Except GrpcError Resp)
    (ctx : Ctx) (req : Req) (now : ℚ) : UnaryOutcome Req Resp :=
  if publicMethods.contains fullMethod then
    { result := handler ctx req, rateLimiter := rateLimiter,
      events := [Event.handlerCall ctx req] }
  else
    match extractAccessToken ctx with
    | Except.error e =>
        { result := Except.error e, rateLimiter := rateLimiter, events := [] }
    | Except.ok accessToken =>
      match rateLimiter with
      | some tb =>
        let r := tb.Allow accessToken now
        if !r.1.1 then
          { result := Except.error
              ⟨Code.resourceExhausted, "rate limit exceeded, please try again later"⟩,
            rateLimiter := some r.2,
            events := [Event.allowCall accessToken] }
        else
          unaryValidatePhase validateJWT handler ctx req accessToken (some r.2)
            [Event.allowCall accessToken]
      | none =>
          unaryValidatePhase validateJWT handler ctx req accessToken none []

/-- A `grpc.ServerStream`: its `Context()` plus an opaque rump standing for
the rest of the stream object, which `wrappedServerStream` embeds unchanged. -/
structure ServerStream where
  inner : ℕ
  ctx : Ctx
  deriving Repr, DecidableEq

/-- An observable call the stream interceptor makes to a collaborator. -/
inductive SEvent (Srv : Type) where
  | allowCall (tok : String)
  | validateCall (tok : String)
  | handlerCall (srv : Srv) (st : ServerStream)

/-- The observable outcome of one stream interceptor run (`none` result means
the nil error). -/
structure StreamOutcome (Srv : Type) where
  result : Option GrpcError
  rateLimiter : Option TokenBucket
  events : List (SEvent Srv)

/-- The tail of `AuthInterceptor.StreamInterceptor` from SSO validation on:
on success the handler receives a `wrappedServerStream` whose context has the
user info and access token bound. -/
def streamValidatePhase {Srv : Type}
    (validateJWT : String → Except String UserInfo)
    (handler : Srv → ServerStream → Option GrpcError)
    (srv : Srv) (stream : ServerStream) (accessToken : String)
    (rl : Option TokenBucket) (evs : List (SEvent Srv)) : StreamOutcome Srv :=
  match validateJWT accessToken with
  | Except.error _ =>
      { result := some ⟨Code.unauthenticated, "invalid or expired token"⟩,
        rateLimiter := rl,
        events := evs ++ [SEvent.validateCall accessToken] }
  | Except.ok u =>
      let wctx := withValue (withValue stream.ctx "user" (CtxVal.user u))
        "access_token" (CtxVal.token accessToken)
      let wrapped : ServerStream := { stream with ctx := wctx }
      { result := handler srv wrapped,
        rateLimiter := rl,
        events := evs ++ [SEvent.validateCall accessToken, SEvent.handlerCall srv wrapped] }

/-- Function `AuthInterceptor.StreamInterceptor` from internal/grpc. -/
def streamInterceptor {Srv : Type}
    (publicMethods : List String)
    (rateLimiter : Option TokenBucket)
    (validateJWT : String → Except String UserInfo)
    (fullMethod : String)
    (handler : Srv → ServerStream → Option GrpcError)
    (srv : Srv) (stream : ServerStream) (now : ℚ) : StreamOutcome Srv :=
  if publicMethods.contains fullMethod then
    { result := handler srv stream, rateLimiter := rateLimiter,
      events := [SEvent.handlerCall srv stream] }
  else
    match extractAccessToken stream.ctx with
    | Except.error e =>
        { result := some e, rateLimiter := rateLimiter, events := [] }
    | Except.ok accessToken =>
      match rateLimiter with
      | some tb =>
        let r := tb.Allow accessToken now
        if !r.1.1 then
          { result := some
              ⟨Code.resourceExhausted, "rate limit exceeded, please try again later"⟩,
            rateLimiter := some r.2,
            events := [SEvent.allowCall accessToken] }
        else
          streamValidatePhase validateJWT handler srv stream accessToken (some r.2)
            [SEvent.allowCall accessToken]
      | none =>
          streamValidatePhase validateJWT handler srv stream accessToken none []

/-! ## internal/app/gprc: interceptor chain builder -/

/-- The shape of a `grpc.UnaryHandler`, over abstract context, request and
result types. -/
def UnaryHandlerT (C R A : Type) : Type := C → R → A

/-- The shape of a `grpc.UnaryServerInterceptor`, over abstract context,
request, call-info and result types. -/
def UnaryInterceptorT (C R I A : Type) : Type :=
  C → R → I → UnaryHandlerT C R A → A

/-- Function `chainUnaryInterceptors` from internal/app/gprc: the Go loop walks the
interceptor slice from last to first, each step wrapping the accumulated
handler in a closure that passes the composed entry point's own `info`;
that loop is a right fold, and the folded handler is applied to the entry
point's context and request. -/
def chainUnaryInterceptors {C R I A : Type}
    (interceptors : List (UnaryInterceptorT C R I A)) : UnaryInterceptorT C R I A :=
  fun ctx req info handler =>
    (interceptors.foldr
      (fun currentInterceptor innerHandler =>
        fun currentCtx currentReq =>
          currentInterceptor currentCtx currentReq info innerHandler)
      handler) ctx req

/-- The spec's nested-application form for the unary chain: the first
interceptor is outermost and every layer receives the same `info`. -/
def nestedUnaryChain {C R I A : Type} :
    List (UnaryInterceptorT C R I A) → I → UnaryHandlerT C R A → UnaryHandlerT C R A
  | [], _, handler => handler
  | ic :: rest, info, handler =>
      fun ctx req => ic ctx req info (nestedUnaryChain rest info handler)

/-- The shape of a `grpc.StreamHandler`, over abstract service, stream and
result types. -/
def StreamHandlerT (S St A : Type) : Type := S → St → A

/-- The shape of a `grpc.StreamServerInterceptor`. -/
def StreamInterceptorT (S St I A : Type) : Type :=
  S → St → I → StreamHandlerT S St A → A

/-- Function `chainStreamInterceptors` from internal/app/gprc. -/
def chainStreamInterceptors {S St I A : Type}
    (interceptors : List (StreamInterceptorT S St I A)) : StreamInterceptorT S St I A :=
  fun srv stream info handler =>
    (interceptors.foldr
      (fun currentInterceptor innerHandler =>
        fun currentSrv currentStream =>
          currentInterceptor currentSrv currentStream info innerHandler)
      handler) srv stream

/-- The spec's nested-application form for the stream chain. -/
def nestedStreamChain {S St I A : Type} :
    List (StreamInterceptorT S St I A) → I → StreamHandlerT S St A → StreamHandlerT S St A
  | [], _, handler => handler
  | ic :: rest, info, handler =>
      fun srv stream => ic srv stream info (nestedStreamChain rest info handler)

/-! ## internal/clients/sso: identity client -/

/-- Struct `sso.Config` (the retry count is consumed by the caller, not by `New`). -/
structure SSOConfig where
  address : String
  timeout : ℚ
  insecure : Bool

/-- The underlying `*grpc.ClientConn`, opaque. -/
structure ClientConn where
  id : ℕ

/-- Struct `sso.Client`: all sub-clients share the single connection. -/
structure SSOClient where
  conn : ClientConn

/-- One observable `grpc.DialContext` attempt, carrying the address and the
timeout of the `context.WithTimeout` context it runs under. -/
structure DialAttempt where
  address : String
  timeout : ℚ

/-- Function `sso.New` from internal/clients/sso, with `grpc.DialContext` as an
oracle `dial`: `New` derives a dial context bounded by exactly
`cfg.timeout`, makes a single dial attempt, propagates a dial failure as an
error return (wrapping the message, returning no client), and never retries
(retry policy lives in the caller, `app.MustConnectSSO`). -/
def ssoNew (dial : String → ℚ → Except String ClientConn) (cfg : SSOConfig) :
    Except String SSOClient × List DialAttempt :=
  match dial cfg.address cfg.timeout with
  | Except.error e =>
      (Except.error ("clients.sso.New: failed to connect to SSO service: " ++ e),
        [⟨cfg.address, cfg.timeout⟩])
  | Except.ok conn =>
      (Except.ok ⟨conn⟩, [⟨cfg.address, cfg.timeout⟩])

/-! ## Concrete fixtures used to instantiate the universally quantified
theorems at sample calls -/

/-- A sample verified identity. -/
def u0 : UserInfo :=
  { userID := 7, username := "alice", email := "alice@example.com",
    photoURL := "", role := 1, appID := 1, balance := 100 }

/-- An SSO oracle accepting exactly the token `tok1`. -/
def vOK : String → Except String UserInfo :=
  fun t => if t == "tok1" then Except.ok u0 else Except.error "invalid token"

/-- An SSO oracle rejecting every token. -/
def vBad : String → Except String UserInfo :=
  fun _ => Except.error "invalid token"

/-- A terminal unary handler answering 0. -/
def hUnit : Ctx → ℕ → Except GrpcError ℕ :=
  fun _ _ => Except.ok 0

/-- A terminal stream handler returning the nil error. -/
def shUnit : ℕ → ServerStream → Option GrpcError :=
  fun _ _ => none

/-- A call context with a well-formed bearer credential `tok1`. -/
def ctxOK : Ctx :=
  { md := some [("authorization", "Bearer tok1")], vals := [] }

/-- A call context with the wrong header scheme (the spec's `Token abc`). -/
def ctxWrongPre : Ctx :=
  { md := some [("authorization", "Token abc")], vals := [] }

/-- A call context whose authorization value is exactly `Bearer `. -/
def ctxBearerOnly : Ctx :=
  { md := some [("authorization", "Bearer ")], vals := [] }

/-- A limiter state whose `tok1` bucket is exhausted at time 0. -/
def tbExhausted : TokenBucket :=
  { buckets := [("tok1", { tokens := 0, lastUpdate := 0 })], rate := 10, capacity := 20 }

/-! ### Association-list lemmas -/

lemma mem_setBucket {m : List (String × Bucket)} {k : String} {b : Bucket}
    {p : String × Bucket} (hp : p ∈ setBucket m k b) : p = (k, b) ∨ p ∈ m := by
  induction m with
  | nil => simp [setBucket] at hp; simp [hp]
  | cons hd tl ih =>
    obtain ⟨k', b'⟩ := hd
    simp only [setBucket] at hp
    by_cases hk : (k' == k) = true
    · rw [if_pos hk] at hp
      rcases List.mem_cons.mp hp with h | h
      · exact Or.inl h
      · exact Or.inr (List.mem_cons_of_mem _ h)
    · rw [if_neg hk] at hp
      rcases List.mem_cons.mp hp with h | h
      · exact Or.inr (h ▸ List.mem_cons_self _ _)
      · rcases ih h with h' | h'
        · exact Or.inl h'
        · exact Or.inr (List.mem_cons_of_mem _ h')

lemma mem_eraseBucket {m : List (String × Bucket)} {k : String}
    {p : String × Bucket} (hp : p ∈ eraseBucket m k) : p ∈ m := by
  induction m with
  | nil => simp [eraseBucket] at hp
  | cons hd tl ih =>
    obtain ⟨k', b'⟩ := hd
    simp only [eraseBucket] at hp
    by_cases hk : (k' == k) = true
    · rw [if_pos hk] at hp
      exact List.mem_cons_of_mem _ (ih hp)
    · rw [if_neg hk] at hp
      rcases List.mem_cons.mp hp with h | h
      · exact h ▸ List.mem_cons_self _ _
      · exact List.mem_cons_of_mem _ (ih h)

lemma findBucket_eraseBucket (m : List (String × Bucket)) (k : String) :
    findBucket (eraseBucket m k) k = none := by
  induction m with
  | nil => rfl
  | cons hd tl ih =>
    obtain ⟨k', b'⟩ := hd
    simp only [eraseBucket]
    by_cases hk : (k' == k) = true
    · rw [if_pos hk]; exact ih
    · rw [if_neg hk]
      simp only [findBucket, if_neg hk]
      exact ih

lemma findBucket_setBucket (m : List (String × Bucket)) (k : String) (b : Bucket) :
    findBucket (setBucket m k b) k = some b := by
  induction m with
  | nil => simp [setBucket, findBucket]
  | cons hd tl ih =>
    obtain ⟨k', b'⟩ := hd
    simp only [setBucket]
    by_cases hk : (k' == k) = true
    · rw [if_pos hk]; simp [findBucket]
    · rw [if_neg hk]
      simp only [findBucket, if_neg hk]
      exact ih

lemma findBucket_some_mem {m : List (String × Bucket)} {k : String} {b : Bucket}
    (h : findBucket m k = some b) : (k, b) ∈ m := by
  induction m with
  | nil => simp [findBucket] at h
  | cons hd tl ih =>
    obtain ⟨k', b'⟩ := hd
    simp only [findBucket] at h
    by_cases hk : (k' == k) = true
    · rw [if_pos hk] at h
      have : k' = k := by simpa using hk
      cases h
      exact this ▸ List.mem_cons_self _ _
    · rw [if_neg hk] at h
      exact List.mem_cons_of_mem _ (ih h)

/-! ### Arithmetic helper lemmas -/

lemma goTrunc_eq_floor {q : ℚ} (h : 0 ≤ q) : goTrunc q = ⌊q⌋ := by
  simp [goTrunc, h]

lemma goCap_eq_min (t c : ℚ) : (if t > c then c else t) = min t c := by
  rcases le_or_lt t c with hle | hlt
  · rw [if_neg (not_lt.mpr hle), min_eq_left hle]
  · rw [if_pos hlt, min_eq_right hlt.le]

/-! ### Context and extraction lemmas -/

lemma getUser_withBoth (c : Ctx) (tok : String) (u : UserInfo) :
    GetUserFromContext
      (withValue (withValue c "user" (CtxVal.user u)) "access_token" (CtxVal.token tok))
      = some u := by
  have h1 : (("access_token" : String) == "user") = false := by decide
  have h2 : (("user" : String) == "user") = true := by decide
  simp [GetUserFromContext, ctxValue, withValue, List.find?, h1, h2]

lemma getToken_withBoth (c : Ctx) (tok : String) (u : UserInfo) :
    GetAccessTokenFromContext
      (withValue (withValue c "user" (CtxVal.user u)) "access_token" (CtxVal.token tok))
      = some tok := by
  have h1 : (("access_token" : String) == "access_token") = true := by decide
  simp [GetAccessTokenFromContext, ctxValue, withValue, List.find?, h1]

lemma extract_error_unauthenticated {c : Ctx} {e : GrpcError}
    (h : extractAccessToken c = Except.error e) :
    e.code = Code.unauthenticated ∧
    (e.msg = "missing metadata" ∨ e.msg = "missing authorization header" ∨
      e.msg = "invalid authorization format, expected Bearer token") := by
  cases hmd : c.md with
  | none =>
    simp only [extractAccessToken, hmd, Except.error.injEq] at h
    subst h
    exact ⟨rfl, Or.inl rfl⟩
  | some m =>
    cases hget : mdGet m "authorization" with
    | nil =>
      simp only [extractAccessToken, hmd, hget, Except.error.injEq] at h
      subst h
      exact ⟨rfl, Or.inr (Or.inl rfl)⟩
    | cons v vs =>
      simp only [extractAccessToken, hmd, hget] at h
      by_cases hpre : goHasPre v "Bearer " = true
      · rw [if_pos hpre] at h
        exact absurd h (by simp)
      · rw [if_neg hpre] at h
        simp only [Except.error.injEq] at h
        subst h
        exact ⟨rfl, Or.inr (Or.inr rfl)⟩

lemma extract_ok_of_bearer {c : Ctx} {m : List (String × String)}
    {v : String} {vs : List String}
    (hmd : c.md = some m) (hget : mdGet m "authorization" = v :: vs)
    (hpre : goHasPre v "Bearer " = true) :
    extractAccessToken c = Except.ok (String.mk (v.data.drop 7)) := by
  have hlen : ("Bearer " : String).data.length = 7 := by decide
  simp [extractAccessToken, hmd, hget, hpre, goTrimPre, hlen]

/-- C1: for every credential, `TokenBucket.Allow` follows the spec's
token-bucket contract exactly: first sight creates a `capacity - 1` bucket
and admits with `remaining = capacity - 1`; otherwise it refills by
`elapsed * rate` capped at `capacity`, stamps `lastRefill = now`, and admits
(subtracting 1, reporting the floor of the new balance) precisely when the
refilled balance is at least 1, rejecting with `remaining = 0` and no
subtraction otherwise. -/
theorem C1_allow_meets_contract (tb : TokenBucket) (tok : String) (now : ℚ) :
    tb.Allow tok now = allowContract tb tok now := by
  cases h : findBucket tb.buckets tok with
  | none => simp [TokenBucket.Allow, allowContract, h]
  | some b =>
    have hmin := goCap_eq_min
      (b.tokens + (now - b.lastUpdate) * (tb.rate : ℚ)) (tb.capacity : ℚ)
    simp only [TokenBucket.Allow, allowContract, h, hmin]
    by_cases h1 :
        min (b.tokens + (now - b.lastUpdate) * (tb.rate : ℚ)) (tb.capacity : ℚ) ≥ 1
    · rw [if_pos h1, if_pos h1, goTrunc_eq_floor (by linarith)]
    · rw [if_neg h1, if_neg h1]

/-- C6: with `capacity ≥ 1` and `rate ≥ 0` as fixed by construction, the
bucket-balance invariant `tokens ∈ [0, capacity]` holds for every stored
bucket after every completed `Allow` or `Reset`, assuming it held before and
that the clock is monotone (`lastUpdate ≤ now` for every stored bucket). -/
theorem C6_bucket_balance_invariant (tb : TokenBucket) (tok : String) (now : ℚ)
    (hInv : tb.Inv) (hUTD : tb.UpToDate now)
    (hcap : 1 ≤ tb.capacity) (hrate : 0 ≤ tb.rate) :
    (tb.Allow tok now).2.Inv ∧ (tb.Reset tok).Inv ∧
    (∀ r c : ℤ, (ratelimiterNew r c).Inv ∧ 1 ≤ (ratelimiterNew r c).capacity ∧
      1 ≤ (ratelimiterNew r c).rate) := by
  have hcapQ : (1 : ℚ) ≤ (tb.capacity : ℚ) := by exact_mod_cast hcap
  have hrateQ : (0 : ℚ) ≤ (tb.rate : ℚ) := by exact_mod_cast hrate
  refine ⟨?_, ?_, ?_⟩
  · cases h : findBucket tb.buckets tok with
    | none =>
      simp only [TokenBucket.Allow, TokenBucket.Inv, h]
      intro p hp
      rcases mem_setBucket hp with rfl | hmem
      · constructor
        · push_cast; linarith
        · push_cast; linarith
      · exact hInv _ hmem
    | some b =>
      have hbmem := findBucket_some_mem h
      obtain ⟨hb0, hbc⟩ := hInv _ hbmem
      have ht := hUTD _ hbmem
      have hel : (0 : ℚ) ≤ (now - b.lastUpdate) * (tb.rate : ℚ) :=
        mul_nonneg (by linarith) hrateQ
      simp only [TokenBucket.Allow, TokenBucket.Inv, h]
      set t1 : ℚ := b.tokens + (now - b.lastUpdate) * (tb.rate : ℚ) with ht1def
      have ht1 : 0 ≤ t1 := by rw [ht1def]; linarith
      set t2 : ℚ := if t1 > (tb.capacity : ℚ) then (tb.capacity : ℚ) else t1
        with ht2def
      have ht2a : 0 ≤ t2 := by
        rw [ht2def]; split_ifs with hgt
        · linarith
        · exact ht1
      have ht2b : t2 ≤ (tb.capacity : ℚ) := by
        rw [ht2def]; split_ifs with hgt
        · exact le_refl _
        · exact le_of_not_lt hgt
      split_ifs with h2
      · intro p hp
        rcases mem_setBucket hp with rfl | hmem
        · exact ⟨by simp; linarith, by simp; linarith⟩
        · exact hInv _ hmem
      · intro p hp
        rcases mem_setBucket hp with rfl | hmem
        · exact ⟨by simp; linarith, by simp; linarith⟩
        · exact hInv _ hmem
  · simp only [TokenBucket.Reset, TokenBucket.Inv]
    intro p hp
    exact hInv _ (mem_eraseBucket hp)
  · intro r c
    refine ⟨?_, ?_, ?_⟩
    · intro p hp
      simp [ratelimiterNew] at hp
    · simp only [ratelimiterNew]
      split_ifs <;> omega
    · simp only [ratelimiterNew]
      split_ifs <;> omega

/-- C6 witness: the invariant theorem applied at a concrete limiter state. -/
theorem C6_bucket_balance_invariant_witness :
    (ratelimiterNew 10 20).Inv ∧ (ratelimiterNew 10 20).UpToDate 5 ∧
    1 ≤ (ratelimiterNew 10 20).capacity ∧ 0 ≤ (ratelimiterNew 10 20).rate ∧
    ((ratelimiterNew 10 20).Allow "tok1" 5).2.Inv ∧
    ((ratelimiterNew 10 20).Reset "tok1").Inv := by
  have hInv : (ratelimiterNew 10 20).Inv := by
    intro p hp; simp [ratelimiterNew] at hp
  have hUTD : (ratelimiterNew 10 20).UpToDate 5 := by
    intro p hp; simp [ratelimiterNew] at hp
  have hcap : 1 ≤ (ratelimiterNew 10 20).capacity := by norm_num [ratelimiterNew]
  have hrate : 0 ≤ (ratelimiterNew 10 20).rate := by norm_num [ratelimiterNew]
  have h := C6_bucket_balance_invariant (ratelimiterNew 10 20) "tok1" 5 hInv hUTD
    hcap hrate
  exact ⟨hInv, hUTD, hcap, hrate, h.1, h.2.1⟩

/-- C7: `Reset` followed immediately by `Allow` is exactly first-sight
behaviour: the call is admitted with `remaining = capacity - 1`, the
resulting bucket holds `capacity - 1` tokens, and both the returned pair and
the resulting bucket agree with an `Allow` on any limiter (same capacity)
that has never seen the credential. -/
theorem C7_reset_then_allow (tb tb' : TokenBucket) (tok : String) (now : ℚ)
    (hc : tb'.capacity = tb.capacity)
    (hfresh : findBucket tb'.buckets tok = none) :
    ((tb.Reset tok).Allow tok now).1 = (true, tb.capacity - 1) ∧
    findBucket ((tb.Reset tok).Allow tok now).2.buckets tok
      = some ⟨((tb.capacity - 1 : ℤ) : ℚ), now⟩ ∧
    (tb'.Allow tok now).1 = ((tb.Reset tok).Allow tok now).1 ∧
    findBucket (tb'.Allow tok now).2.buckets tok
      = findBucket ((tb.Reset tok).Allow tok now).2.buckets tok := by
  have h0 : findBucket (eraseBucket tb.buckets tok) tok = none :=
    findBucket_eraseBucket _ _
  refine ⟨?_, ?_, ?_, ?_⟩
  · simp [TokenBucket.Allow, TokenBucket.Reset, h0]
  · simp only [TokenBucket.Allow, TokenBucket.Reset, h0]
    exact findBucket_setBucket _ _ _
  · simp [TokenBucket.Allow, TokenBucket.Reset, h0, hfresh, hc]
  · simp only [TokenBucket.Allow, TokenBucket.Reset, h0, hfresh]
    rw [findBucket_setBucket, findBucket_setBucket, hc]

/-- C7 witness: reset-then-allow at a concrete limiter state. -/
theorem C7_reset_then_allow_witness :
    (({ buckets := [("t", ⟨3, 0⟩)], rate := 10, capacity := 20 } :
        TokenBucket).capacity = 20) ∧
    findBucket ([] : List (String × Bucket)) "t" = none ∧
    ((({ buckets := [("t", ⟨3, 0⟩)], rate := 10, capacity := 20 } :
        TokenBucket).Reset "t").Allow "t" 1).1 = (true, 19) := by
  refine ⟨rfl, rfl, ?_⟩
  have h := C7_reset_then_allow
    ({ buckets := [("t", ⟨3, 0⟩)], rate := 10, capacity := 20 } : TokenBucket)
    ({ buckets := [], rate := 10, capacity := 20 } : TokenBucket)
    "t" 1 rfl rfl
  exact h.1

lemma validatePhase_cases {Req Resp : Type}
    (validateJWT : String → Except String UserInfo)
    (handler : Ctx → Req → Except GrpcError Resp)
    (ctx : Ctx) (req : Req) (tok0 : String) (rl' : Option TokenBucket)
    (evs : List (Event Req))
    (hevsH : ∀ c r, Event.handlerCall c r ∉ evs) :
    (∀ c r, Event.handlerCall c r ∈
        (unaryValidatePhase validateJWT handler ctx req tok0 rl' evs).events →
      ∃ u, validateJWT tok0 = Except.ok u ∧
        GetUserFromContext c = some u ∧ GetAccessTokenFromContext c = some tok0) ∧
    (∀ e, validateJWT tok0 = Except.error e →
      (unaryValidatePhase validateJWT handler ctx req tok0 rl' evs).result
        = Except.error ⟨Code.unauthenticated, "invalid or expired token"⟩ ∧
      ∀ c r, Event.handlerCall c r ∉
        (unaryValidatePhase validateJWT handler ctx req tok0 rl' evs).events) ∧
    (∀ u, validateJWT tok0 = Except.ok u →
      ∃ c, Event.handlerCall c req ∈
          (unaryValidatePhase validateJWT handler ctx req tok0 rl' evs).events ∧
        GetUserFromContext c = some u ∧ GetAccessTokenFromContext c = some tok0) := by
  cases hv : validateJWT tok0 with
  | error err =>
    refine ⟨?_, ?_, ?_⟩
    · intro c r hmem
      simp only [unaryValidatePhase, hv] at hmem
      simp at hmem
      exact absurd hmem (hevsH c r)
    · intro e _
      constructor
      · simp [unaryValidatePhase, hv]
      · intro c r hmem
        simp only [unaryValidatePhase, hv] at hmem
        simp at hmem
        exact absurd hmem (hevsH c r)
    · intro u hu
      simp at hu
  | ok u =>
    refine ⟨?_, ?_, ?_⟩
    · intro c r hmem
      simp only [unaryValidatePhase, hv] at hmem
      simp at hmem
      rcases hmem with hmem | ⟨hc, hr⟩
      · exact absurd hmem (hevsH c r)
      · subst hc
        exact ⟨u, rfl, getUser_withBoth ctx tok0 u, getToken_withBoth ctx tok0 u⟩
    · intro e he
      simp at he
    · intro u' hu'
      injection hu' with h
      subst h
      refine ⟨_, ?_, getUser_withBoth ctx tok0 u, getToken_withBoth ctx tok0 u⟩
      simp [unaryValidatePhase, hv]

lemma unary_nonpublic_shape {Req Resp : Type}
    (pub : List String) (rl : Option TokenBucket)
    (validateJWT : String → Except String UserInfo)
    (fullMethod : String) (handler : Ctx → Req → Except GrpcError Resp)
    (ctx : Ctx) (req : Req) (now : ℚ) (tok0 : String)
    (rl' : Option TokenBucket) (evs : List (Event Req))
    (hE : extractAccessToken ctx = Except.ok tok0)
    (hevsH : ∀ c r, Event.handlerCall c r ∉ evs)
    (hO : unaryInterceptor pub rl validateJWT fullMethod handler ctx req now
      = unaryValidatePhase validateJWT handler ctx req tok0 rl' evs) :
    (∀ c r, Event.handlerCall c r ∈
        (unaryInterceptor pub rl validateJWT fullMethod handler ctx req now).events →
      ∃ tok u, extractAccessToken ctx = Except.ok tok ∧
        validateJWT tok = Except.ok u ∧
        GetUserFromContext c = some u ∧ GetAccessTokenFromContext c = some tok) ∧
    (∀ tok e, extractAccessToken ctx = Except.ok tok →
      validateJWT tok = Except.error e →
      Event.validateCall tok ∈
        (unaryInterceptor pub rl validateJWT fullMethod handler ctx req now).events →
      (unaryInterceptor pub rl validateJWT fullMethod handler ctx req now).result
        = Except.error ⟨Code.unauthenticated, "invalid or expired token"⟩ ∧
      ∀ c r, Event.handlerCall c r ∉
        (unaryInterceptor pub rl validateJWT fullMethod handler ctx req now).events) ∧
    (∀ tok u, extractAccessToken ctx = Except.ok tok →
      validateJWT tok = Except.ok u →
      Event.validateCall tok ∈
        (unaryInterceptor pub rl validateJWT fullMethod handler ctx req now).events →
      ∃ c, Event.handlerCall c req ∈
          (unaryInterceptor pub rl validateJWT fullMethod handler ctx req now).events ∧
        GetUserFromContext c = some u ∧ GetAccessTokenFromContext c = some tok) := by
  have hph := validatePhase_cases validateJWT handler ctx req tok0 rl' evs hevsH
  refine ⟨?_, ?_, ?_⟩
  · intro c r hmem
    rw [hO] at hmem
    obtain ⟨u, hu, hgu, hgt⟩ := hph.1 c r hmem
    exact ⟨tok0, u, hE, hu, hgu, hgt⟩
  · intro tok e hex hverr hmem
    rw [hE] at hex
    injection hex with hx
    subst hx
    rw [hO]
    exact hph.2.1 e hverr
  · intro tok u hex hvok hmem
    rw [hE] at hex
    injection hex with hx
    subst hx
    obtain ⟨c, hcmem, hgu, hgt⟩ := hph.2.2 u hvok
    rw [hO]
    exact ⟨c, hcmem, hgu, hgt⟩

/-- C2: for every non-public call, the verified identity is bound into the
context handed to the next stage exactly when SSO validation succeeded: any
context that reaches the handler carries the validated user and credential;
and whenever the SSO validation call is made and returns an error, the
interceptor answers `codes.Unauthenticated` with the fixed message, the
handler is never invoked and no augmented context is handed onward. -/
theorem C2_identity_iff_validation {Req Resp : Type}
    (pub : List String) (rl : Option TokenBucket)
    (validateJWT : String → Except String UserInfo)
    (fullMethod : String) (handler : Ctx → Req → Except GrpcError Resp)
    (ctx : Ctx) (req : Req) (now : ℚ)
    (hnp : pub.contains fullMethod = false) :
    (∀ c r, Event.handlerCall c r ∈
        (unaryInterceptor pub rl validateJWT fullMethod handler ctx req now).events →
      ∃ tok u, extractAccessToken ctx = Except.ok tok ∧
        validateJWT tok = Except.ok u ∧
        GetUserFromContext c = some u ∧ GetAccessTokenFromContext c = some tok) ∧
    (∀ tok e, extractAccessToken ctx = Except.ok tok →
      validateJWT tok = Except.error e →
      Event.validateCall tok ∈
        (unaryInterceptor pub rl validateJWT fullMethod handler ctx req now).events →
      (unaryInterceptor pub rl validateJWT fullMethod handler ctx req now).result
        = Except.error ⟨Code.unauthenticated, "invalid or expired token"⟩ ∧
      ∀ c r, Event.handlerCall c r ∉
        (unaryInterceptor pub rl validateJWT fullMethod handler ctx req now).events) ∧
    (∀ tok u, extractAccessToken ctx = Except.ok tok →
      validateJWT tok = Except.ok u →
      Event.validateCall tok ∈
        (unaryInterceptor pub rl validateJWT fullMethod handler ctx req now).events →
      ∃ c, Event.handlerCall c req ∈
          (unaryInterceptor pub rl validateJWT fullMethod handler ctx req now).events ∧
        GetUserFromContext c = some u ∧ GetAccessTokenFromContext c = some tok) := by
  have hnp2 : fullMethod ∉ pub := by simpa using hnp
  have hsplit : (∃ t, extractAccessToken ctx = Except.ok t) ∨
      (∃ e, extractAccessToken ctx = Except.error e) := by
    cases extractAccessToken ctx with
    | ok t => exact Or.inl ⟨t, rfl⟩
    | error e => exact Or.inr ⟨e, rfl⟩
  rcases hsplit with ⟨tok0, hE⟩ | ⟨e0, hE⟩
  · cases rl with
    | none =>
      exact unary_nonpublic_shape pub none validateJWT fullMethod handler ctx req now
        tok0 none [] hE (by intro c r h; simp at h)
        (by simp [unaryInterceptor, hnp2, hE])
    | some tb =>
      cases hA : (tb.Allow tok0 now).1.1 with
      | false =>
        have hO : unaryInterceptor pub (some tb) validateJWT fullMethod handler ctx req now
            = { result := Except.error
                  ⟨Code.resourceExhausted, "rate limit exceeded, please try again later"⟩,
                rateLimiter := some (tb.Allow tok0 now).2,
                events := [Event.allowCall tok0] } := by
          simp [unaryInterceptor, hnp2, hE, hA]
        refine ⟨?_, ?_, ?_⟩
        · intro c r hmem
          rw [hO] at hmem
          simp at hmem
        · intro tok e hex hverr hmem
          rw [hE] at hex
          injection hex with hx
          subst hx
          rw [hO] at hmem
          simp at hmem
        · intro tok u hex hvok hmem
          rw [hE] at hex
          injection hex with hx
          subst hx
          rw [hO] at hmem
          simp at hmem
      | true =>
        exact unary_nonpublic_shape pub (some tb) validateJWT fullMethod handler ctx req
          now tok0 (some (tb.Allow tok0 now).2) [Event.allowCall tok0] hE
          (by intro c r h; simp at h)
          (by simp [unaryInterceptor, hnp2, hE, hA])
  · have hO : unaryInterceptor pub rl validateJWT fullMethod handler ctx req now
        = { result := Except.error e0, rateLimiter := rl, events := [] } := by
      simp [unaryInterceptor, hnp2, hE]
    refine ⟨?_, ?_, ?_⟩
    · intro c r hmem
      rw [hO] at hmem
      simp at hmem
    · intro tok e hex
      rw [hE] at hex
      simp at hex
    · intro tok u hex
      rw [hE] at hex
      simp at hex

/-- C2 witness: a call whose SSO oracle rejects every token is answered
`codes.Unauthenticated` with the fixed message. -/
theorem C2_identity_iff_validation_witness :
    (([] : List String).contains "/management.Management/CreatePlan") = false ∧
    (unaryInterceptor [] none vBad "/management.Management/CreatePlan" hUnit
        ctxOK (0 : ℕ) 0).result
      = Except.error ⟨Code.unauthenticated, "invalid or expired token"⟩ := by
  have h := C2_identity_iff_validation [] none vBad "/management.Management/CreatePlan"
    hUnit ctxOK (0 : ℕ) 0 (by decide)
  refine ⟨by decide, ?_⟩
  have hex : extractAccessToken ctxOK = Except.ok "tok1" := rfl
  have hverr : vBad "tok1" = Except.error "invalid token" := rfl
  have hmem : Event.validateCall "tok1" ∈
      (unaryInterceptor [] none vBad "/management.Management/CreatePlan" hUnit
        ctxOK (0 : ℕ) 0).events := by
    show Event.validateCall "tok1" ∈ [Event.validateCall "tok1"]
    exact List.mem_singleton.mpr rfl
  exact (h.2.1 "tok1" "invalid token" hex hverr hmem).1

/-- C3: for a non-public call whose credential was extracted, a configured
limiter that denies the call makes the interceptor answer
`codes.ResourceExhausted` with only the limiter consulted (no SSO call, no
handler call), while with no limiter configured the interceptor goes
straight to the validation phase and never consults a limiter. -/
theorem C3_limiter_precedes_sso {Req Resp : Type}
    (pub : List String) (tb : TokenBucket)
    (validateJWT : String → Except String UserInfo)
    (fullMethod : String) (handler : Ctx → Req → Except GrpcError Resp)
    (ctx : Ctx) (req : Req) (now : ℚ) (tok : String)
    (hnp : pub.contains fullMethod = false)
    (hex : extractAccessToken ctx = Except.ok tok)
    (hdeny : (tb.Allow tok now).1.1 = false) :
    unaryInterceptor pub (some tb) validateJWT fullMethod handler ctx req now
      = { result := Except.error
            ⟨Code.resourceExhausted, "rate limit exceeded, please try again later"⟩,
          rateLimiter := some (tb.Allow tok now).2,
          events := [Event.allowCall tok] } ∧
    unaryInterceptor pub none validateJWT fullMethod handler ctx req now
      = unaryValidatePhase validateJWT handler ctx req tok none [] ∧
    (∀ t, Event.allowCall t ∉
      (unaryInterceptor pub none validateJWT fullMethod handler ctx req now).events) := by
  have hnp2 : fullMethod ∉ pub := by simpa using hnp
  have h2 : unaryInterceptor pub none validateJWT fullMethod handler ctx req now
      = unaryValidatePhase validateJWT handler ctx req tok none [] := by
    simp [unaryInterceptor, hnp2, hex]
  refine ⟨?_, h2, ?_⟩
  · simp [unaryInterceptor, hnp2, hex, hdeny]
  · intro t
    rw [h2]
    cases hv : validateJWT tok <;> simp [unaryValidatePhase, hv]

/-- C3 witness: an exhausted bucket makes the interceptor reject with
`codes.ResourceExhausted` and a trace holding only the limiter call. -/
theorem C3_limiter_precedes_sso_witness :
    (([] : List String).contains "/management.Management/CreatePlan") = false ∧
    extractAccessToken ctxOK = Except.ok "tok1" ∧
    (tbExhausted.Allow "tok1" 0).1.1 = false ∧
    (unaryInterceptor [] (some tbExhausted) vOK "/management.Management/CreatePlan"
        hUnit ctxOK (0 : ℕ) 0).result
      = Except.error
          ⟨Code.resourceExhausted, "rate limit exceeded, please try again later"⟩ ∧
    (unaryInterceptor [] (some tbExhausted) vOK "/management.Management/CreatePlan"
        hUnit ctxOK (0 : ℕ) 0).events = [Event.allowCall "tok1"] := by
  have hdeny : (tbExhausted.Allow "tok1" 0).1.1 = false := by
    norm_num [TokenBucket.Allow, tbExhausted, findBucket]
  have h := C3_limiter_precedes_sso [] tbExhausted vOK
    "/management.Management/CreatePlan" hUnit ctxOK (0 : ℕ) 0 "tok1"
    (by decide) rfl hdeny
  exact ⟨by decide, rfl, hdeny, by rw [h.1], by rw [h.1]⟩

/-- C4: for every non-public call, missing metadata, a missing authorization
header, or a value without the exact `Bearer ` prefix yields the extraction
error unchanged as the call's answer — always `codes.Unauthenticated`, with
one of three distinct messages — and an empty trace (no limiter, no SSO, no
handler); a value with the prefix extracts the remainder of the first
header value. -/
theorem C4_extraction_gate {Req Resp : Type}
    (pub : List String) (rl : Option TokenBucket)
    (validateJWT : String → Except String UserInfo)
    (fullMethod : String) (handler : Ctx → Req → Except GrpcError Resp)
    (ctx : Ctx) (req : Req) (now : ℚ)
    (hnp : pub.contains fullMethod = false) :
    (∀ e, extractAccessToken ctx = Except.error e →
      (unaryInterceptor pub rl validateJWT fullMethod handler ctx req now).result
          = Except.error e ∧
      (unaryInterceptor pub rl validateJWT fullMethod handler ctx req now).events
          = [] ∧
      e.code = Code.unauthenticated ∧
      (e.msg = "missing metadata" ∨ e.msg = "missing authorization header" ∨
        e.msg = "invalid authorization format, expected Bearer token")) ∧
    (∀ m v vs, ctx.md = some m → mdGet m "authorization" = v :: vs →
      goHasPre v "Bearer " = true →
      extractAccessToken ctx = Except.ok (String.mk (v.data.drop 7))) := by
  have hnp2 : fullMethod ∉ pub := by simpa using hnp
  constructor
  · intro e hE
    obtain ⟨hc, hm⟩ := extract_error_unauthenticated hE
    have hO : unaryInterceptor pub rl validateJWT fullMethod handler ctx req now
        = { result := Except.error e, rateLimiter := rl, events := [] } := by
      simp [unaryInterceptor, hnp2, hE]
    rw [hO]
    exact ⟨rfl, rfl, hc, hm⟩
  · intro m v vs hmd hget hpre
    exact extract_ok_of_bearer hmd hget hpre

/-- C4 witness: the spec's `Token abc` header is rejected as malformed with
an empty collaborator trace. -/
theorem C4_extraction_gate_witness :
    (([] : List String).contains "/management.Management/CreatePlan") = false ∧
    extractAccessToken ctxWrongPre
      = Except.error
          ⟨Code.unauthenticated, "invalid authorization format, expected Bearer token"⟩ ∧
    (unaryInterceptor [] none vOK "/management.Management/CreatePlan" hUnit
        ctxWrongPre (0 : ℕ) 0).result
      = Except.error
          ⟨Code.unauthenticated, "invalid authorization format, expected Bearer token"⟩ ∧
    (unaryInterceptor [] none vOK "/management.Management/CreatePlan" hUnit
        ctxWrongPre (0 : ℕ) 0).events = [] := by
  have h := C4_extraction_gate [] none vOK "/management.Management/CreatePlan" hUnit
    ctxWrongPre (0 : ℕ) 0 (by decide)
  have hE : extractAccessToken ctxWrongPre
      = Except.error
          ⟨Code.unauthenticated, "invalid authorization format, expected Bearer token"⟩ := rfl
  obtain ⟨hr, hev, _, _⟩ := h.1 _ hE
  exact ⟨by decide, hE, hr, hev⟩

/-- C5: a call to a public method is forwarded directly — the handler
receives the original context/request (or stream), the limiter state is
returned untouched, and the trace holds exactly the one handler call (no
limiter call, no SSO call), for both the unary and the stream interceptor. -/
theorem C5_public_bypass {Req Resp Srv : Type}
    (pub : List String) (rl : Option TokenBucket)
    (validateJWT : String → Except String UserInfo)
    (fullMethod : String) (handler : Ctx → Req → Except GrpcError Resp)
    (ctx : Ctx) (req : Req) (now : ℚ)
    (shandler : Srv → ServerStream → Option GrpcError)
    (srv : Srv) (stream : ServerStream)
    (hpub : pub.contains fullMethod = true) :
    unaryInterceptor pub rl validateJWT fullMethod handler ctx req now
      = { result := handler ctx req, rateLimiter := rl,
          events := [Event.handlerCall ctx req] } ∧
    streamInterceptor pub rl validateJWT fullMethod shandler srv stream now
      = { result := shandler srv stream, rateLimiter := rl,
          events := [SEvent.handlerCall srv stream] } := by
  have hpub2 : fullMethod ∈ pub := by simpa using hpub
  constructor
  · simp [unaryInterceptor, hpub2]
  · simp [streamInterceptor, hpub2]

/-- C5 witness: the configured public method `ListPlans` bypasses the
exhausted limiter and the rejecting SSO oracle, unary and stream alike. -/
theorem C5_public_bypass_witness :
    (["/management.Management/ListPlans"].contains
      "/management.Management/ListPlans") = true ∧
    unaryInterceptor ["/management.Management/ListPlans"] (some tbExhausted) vBad
        "/management.Management/ListPlans" hUnit ctxOK (0 : ℕ) 0
      = { result := hUnit ctxOK 0, rateLimiter := some tbExhausted,
          events := [Event.handlerCall ctxOK 0] } ∧
    streamInterceptor ["/management.Management/ListPlans"] (some tbExhausted) vBad
        "/management.Management/ListPlans" shUnit (0 : ℕ) ⟨0, ctxOK⟩ 0
      = { result := shUnit 0 ⟨0, ctxOK⟩, rateLimiter := some tbExhausted,
          events := [SEvent.handlerCall 0 ⟨0, ctxOK⟩] } := by
  have h := C5_public_bypass ["/management.Management/ListPlans"] (some tbExhausted)
    vBad "/management.Management/ListPlans" hUnit ctxOK (0 : ℕ) 0 shUnit (0 : ℕ)
    ⟨0, ctxOK⟩ (by decide)
  exact ⟨by decide, h.1, h.2⟩

lemma foldr_eq_nestedUnary {C R I A : Type}
    (l : List (UnaryInterceptorT C R I A)) (info : I) (handler : UnaryHandlerT C R A) :
    l.foldr
      (fun currentInterceptor innerHandler =>
        fun currentCtx currentReq =>
          currentInterceptor currentCtx currentReq info innerHandler)
      handler
      = nestedUnaryChain l info handler := by
  induction l with
  | nil => rfl
  | cons ic rest ih =>
    simp only [List.foldr, nestedUnaryChain, ih]

lemma foldr_eq_nestedStream {S St I A : Type}
    (l : List (StreamInterceptorT S St I A)) (info : I)
    (handler : StreamHandlerT S St A) :
    l.foldr
      (fun currentInterceptor innerHandler =>
        fun currentSrv currentStream =>
          currentInterceptor currentSrv currentStream info innerHandler)
      handler
      = nestedStreamChain l info handler := by
  induction l with
  | nil => rfl
  | cons ic rest ih =>
    simp only [List.foldr, nestedStreamChain, ih]

/-- C8: the composed entry point built by the chain builder is extensionally
the nested application of the interceptors around the terminal handler, with
the first interceptor outermost and the composed call's own `info` passed
unchanged to every wrapped layer; likewise for the streaming variant. -/
theorem C8_chain_is_nested_application {C R I A S St : Type}
    (uis : List (UnaryInterceptorT C R I A)) (ctx : C) (req : R) (info : I)
    (handler : UnaryHandlerT C R A)
    (sis : List (StreamInterceptorT S St I A)) (srv : S) (stream : St)
    (shandler : StreamHandlerT S St A) :
    chainUnaryInterceptors uis ctx req info handler
      = nestedUnaryChain uis info handler ctx req ∧
    chainStreamInterceptors sis srv stream info shandler
      = nestedStreamChain sis info shandler srv stream := by
  constructor
  · show (uis.foldr _ handler) ctx req = _
    rw [foldr_eq_nestedUnary]
  · show (sis.foldr _ shandler) srv stream = _
    rw [foldr_eq_nestedStream]

/-- C9: `sso.New` makes exactly one dial attempt, under a context bounded by
exactly the configured timeout, and a dial failure is returned as an error
(no client, no second attempt). -/
theorem C9_connect_bounded_no_retry
    (dial : String → ℚ → Except String ClientConn) (cfg : SSOConfig) (e : String)
    (hdial : dial cfg.address cfg.timeout = Except.error e) :
    (ssoNew dial cfg).2 = [⟨cfg.address, cfg.timeout⟩] ∧
    (ssoNew dial cfg).1
      = Except.error ("clients.sso.New: failed to connect to SSO service: " ++ e) := by
  constructor
  · simp [ssoNew, hdial]
  · simp [ssoNew, hdial]

/-- C9 witness: a refused dial is reported as an error after one attempt. -/
theorem C9_connect_bounded_no_retry_witness :
    ((fun _ _ => Except.error "connection refused" :
        String → ℚ → Except String ClientConn) "localhost:44044" 5
      = Except.error "connection refused") ∧
    (ssoNew (fun _ _ => Except.error "connection refused")
        ⟨"localhost:44044", 5, true⟩).2 = [⟨"localhost:44044", 5⟩] ∧
    (ssoNew (fun _ _ => Except.error "connection refused")
        ⟨"localhost:44044", 5, true⟩).1
      = Except.error
          ("clients.sso.New: failed to connect to SSO service: connection refused") := by
  have h := C9_connect_bounded_no_retry
    (fun _ _ => Except.error "connection refused")
    ⟨"localhost:44044", 5, true⟩ "connection refused" rfl
  exact ⟨rfl, h.1, h.2⟩

/-- C10: a header value that is exactly `Bearer ` extracts the empty-string
credential (not a malformed-header rejection), and the call then proceeds to
the limiter and the SSO validation keyed on the empty string; moreover
extraction depends only on the first authorization value in the metadata. -/
theorem C10_empty_bearer_first_value {Req Resp : Type}
    (pub : List String) (tb : TokenBucket)
    (validateJWT : String → Except String UserInfo)
    (fullMethod : String) (handler : Ctx → Req → Except GrpcError Resp)
    (ctx : Ctx) (req : Req) (now : ℚ)
    (m : List (String × String)) (vs : List String)
    (hnp : pub.contains fullMethod = false)
    (hmd : ctx.md = some m)
    (hget : mdGet m "authorization" = "Bearer " :: vs)
    (hgrant : (tb.Allow "" now).1.1 = true) :
    extractAccessToken ctx = Except.ok "" ∧
    Event.allowCall "" ∈
      (unaryInterceptor pub (some tb) validateJWT fullMethod handler ctx req now).events ∧
    Event.validateCall "" ∈
      (unaryInterceptor pub (some tb) validateJWT fullMethod handler ctx req now).events ∧
    (∀ (m1 m2 : List (String × String)) (vs1 vs2 : List (String × CtxVal)),
      (mdGet m1 "authorization").head? = (mdGet m2 "authorization").head? →
      extractAccessToken ⟨some m1, vs1⟩ = extractAccessToken ⟨some m2, vs2⟩) := by
  have hnp2 : fullMethod ∉ pub := by simpa using hnp
  have hex : extractAccessToken ctx = Except.ok "" := by
    have h := extract_ok_of_bearer hmd hget (by decide)
    have hdrop : String.mk (("Bearer " : String).data.drop 7) = "" := by decide
    rw [hdrop] at h
    exact h
  have hO : unaryInterceptor pub (some tb) validateJWT fullMethod handler ctx req now
      = unaryValidatePhase validateJWT handler ctx req "" (some (tb.Allow "" now).2)
          [Event.allowCall ""] := by
    simp [unaryInterceptor, hnp2, hex, hgrant]
  refine ⟨hex, ?_, ?_, ?_⟩
  · rw [hO]
    cases hv : validateJWT "" <;> simp [unaryValidatePhase, hv]
  · rw [hO]
    cases hv : validateJWT "" <;> simp [unaryValidatePhase, hv]
  · intro m1 m2 vs1 vs2 hhead
    cases hg1 : mdGet m1 "authorization" with
    | nil =>
      cases hg2 : mdGet m2 "authorization" with
      | nil => simp [extractAccessToken, hg1, hg2]
      | cons w ws => rw [hg1, hg2] at hhead; simp at hhead
    | cons v vs' =>
      cases hg2 : mdGet m2 "authorization" with
      | nil => rw [hg1, hg2] at hhead; simp at hhead
      | cons w ws =>
        rw [hg1, hg2] at hhead
        simp only [List.head?_cons, Option.some.injEq] at hhead
        subst hhead
        simp [extractAccessToken, hg1, hg2]

/-- C10 witness: the literal `Bearer ` header on a fresh limiter. -/
theorem C10_empty_bearer_first_value_witness :
    (([] : List String).contains "/management.Management/CreatePlan") = false ∧
    ctxBearerOnly.md = some [("authorization", "Bearer ")] ∧
    mdGet [("authorization", "Bearer ")] "authorization" = ["Bearer "] ∧
    ((ratelimiterNew 10 20).Allow "" 0).1.1 = true ∧
    extractAccessToken ctxBearerOnly = Except.ok "" ∧
    Event.allowCall "" ∈
      (unaryInterceptor [] (some (ratelimiterNew 10 20)) vBad
        "/management.Management/CreatePlan" hUnit ctxBearerOnly (0 : ℕ) 0).events ∧
    Event.validateCall "" ∈
      (unaryInterceptor [] (some (ratelimiterNew 10 20)) vBad
        "/management.Management/CreatePlan" hUnit ctxBearerOnly (0 : ℕ) 0).events := by
  have h := C10_empty_bearer_first_value [] (ratelimiterNew 10 20) vBad
    "/management.Management/CreatePlan" hUnit ctxBearerOnly (0 : ℕ) 0
    [("authorization", "Bearer ")] [] (by decide) rfl (by decide) rfl
  exact ⟨by decide, rfl, by decide, rfl, h.1, h.2.1, h.2.2.1⟩

end Mgmt
